import Mathlib

/-!
# Verification of the KOAssistant translation tooling

A shallow embedding, over `List Char` strings, of the core of
`scripts/translate.py` and `scripts/validate_translations.py`:

* the PO parser (`parse_po_file`) and serializer (`write_po_file`),
* the string escape/unescape pair (`escape_po_string` / `unescape_po_string`),
* the extraction filter and batching (`filter_entries`, `extract_batch`),
* the import/apply merger (`import_translations`, `apply_translations`),
* the per-entry validation rules (`validate_entry`).

Python strings are modelled as `List Char`; Python `str.replace`,
`str.count`, `str.split`, `str.strip`, `str.startswith`, `in` and the two
regular expressions used by the scripts are modelled by the executable
helpers below, each mirroring CPython's left-to-right, non-overlapping
scan semantics.  Files are modelled as lists of lines (newline handling
is done by Python's line iteration and `f.write(line + '\n')`).
-/

set_option maxRecDepth 4000

/-- Python strings, modelled as lists of characters. -/
abbrev Str := List Char

/-- `str.startswith`: is `p` a leading segment of `s`? -/
def strStartsWith : Str → Str → Bool
  | [], _ => true
  | _ :: _, [] => false
  | p :: ps, c :: cs => p = c && strStartsWith ps cs

/-- `str.endswith`: is `p` a trailing segment of `s`? -/
def strEndsWith (p s : Str) : Bool :=
  strStartsWith p.reverse s.reverse

/-- Python whitespace test used by `str.strip` / `str.split()` (the
scripts only ever meet ASCII whitespace inside a line). -/
def pyIsSpace (c : Char) : Bool :=
  c = ' ' || c = '\t' || c = '\r' || c = '\x0b' || c = '\x0c' || c = '\n'

/-- `str.strip()` with no argument: drop whitespace from both ends. -/
def pyStrip (s : Str) : Str :=
  ((s.dropWhile pyIsSpace).reverse.dropWhile pyIsSpace).reverse

/-- Helper for `pySplit`: accumulates the current field. -/
def pySplitAux (sep : Char) : Str → Str → List Str
  | [], acc => [acc.reverse]
  | c :: cs, acc =>
    if c = sep then acc.reverse :: pySplitAux sep cs []
    else pySplitAux sep cs (c :: acc)

/-- `str.split(sep)` with a one-character separator; `''.split(sep) = ['']`. -/
def pySplit (sep : Char) (s : Str) : List Str :=
  pySplitAux sep s []

/-- Helper for `pySplitWs`: accumulates the current token. -/
def pySplitWsAux : Str → Str → List Str
  | [], [] => []
  | [], acc => [acc.reverse]
  | c :: cs, acc =>
    if pyIsSpace c then
      (if acc.isEmpty then pySplitWsAux cs [] else acc.reverse :: pySplitWsAux cs [])
    else pySplitWsAux cs (c :: acc)

/-- `str.split()` with no argument: split on whitespace runs, no empties. -/
def pySplitWs (s : Str) : List Str :=
  pySplitWsAux s []

/-- Python `needle in haystack` substring test. -/
def pyContainsSub (needle : Str) : Str → Bool
  | [] => strStartsWith needle []
  | c :: cs => strStartsWith needle (c :: cs) || pyContainsSub needle cs

/-- ASCII `str.lower` (source references are ASCII file paths). -/
def pyLowerChar (c : Char) : Char :=
  if 'A' ≤ c && c ≤ 'Z' then Char.ofNat (c.toNat + 32) else c

/-- `str.lower()` over the whole string. -/
def pyLower (s : Str) : Str :=
  s.map pyLowerChar

/-- Fuel-indexed worker for `pyReplace`; fuel bounds the number of scan
steps so the definition is structurally recursive (and hence reduces
inside the kernel). -/
def pyReplaceF (p r : Str) : Nat → Str → Str
  | _, [] => []
  | 0, s => s
  | fuel + 1, c :: cs =>
    match p with
    | [] => c :: cs
    | _ :: _ =>
      if strStartsWith p (c :: cs) then
        r ++ pyReplaceF p r fuel (cs.drop (p.length - 1))
      else
        c :: pyReplaceF p r fuel cs

/-- Python `s.replace(p, r)` for a non-empty pattern `p`: left-to-right,
non-overlapping replacement.  (The scripts never call `replace` with an
empty pattern.) -/
def pyReplace (p r s : Str) : Str :=
  pyReplaceF p r s.length s

/-- Fuel-indexed worker for `pyCount`. -/
def pyCountF (p : Str) : Nat → Str → Nat
  | _, [] => 0
  | 0, _ => 0
  | fuel + 1, c :: cs =>
    match p with
    | [] => 0
    | _ :: _ =>
      if strStartsWith p (c :: cs) then
        1 + pyCountF p fuel (cs.drop (p.length - 1))
      else
        pyCountF p fuel cs

/-- Python `s.count(p)` for a non-empty pattern: non-overlapping count. -/
def pyCount (p s : Str) : Nat :=
  pyCountF p s.length s

/-- Pair every element with its index, starting at `n`. -/
def enumF (n : Nat) : List α → List (Nat × α)
  | [] => []
  | a :: as => (n, a) :: enumF (n + 1) as

/-- `unescape_po_string` from translate.py: the four sequential
`str.replace` calls, in source order. -/
def unescape_po_string (s : Str) : Str :=
  pyReplace ['\\', '\\'] ['\\']
    (pyReplace ['\\', '"'] ['"']
      (pyReplace ['\\', 't'] ['\t']
        (pyReplace ['\\', 'n'] ['\n'] s)))

/-- `escape_po_string` from translate.py: the four sequential
`str.replace` calls, in source order (backslash first). -/
def escape_po_string (s : Str) : Str :=
  pyReplace ['\t'] ['\\', 't']
    (pyReplace ['\n'] ['\\', 'n']
      (pyReplace ['"'] ['\\', '"']
        (pyReplace ['\\'] ['\\', '\\'] s)))

/-- A string is escape-safe when no backslash is immediately followed by
a literal letter `n` or `t`.  (Exactly the strings on which the
escape/unescape pair below round-trips.) -/
def escSafe : Str → Bool
  | [] => true
  | [_] => true
  | a :: b :: rest =>
    !(a = '\\' && (b = 'n' || b = 't')) && escSafe (b :: rest)

/-- `POEntry` from translate.py: one translation entry of a PO file. -/
structure POEntry where
  comments : List Str := []
  references : List Str := []
  flags : List Str := []
  msgid : Str := []
  msgid_plural : Str := []
  msgstr : Str := []
  msgstr_plural : List Str := []
  line_number : Nat := 0
  is_header : Bool := false
deriving DecidableEq, Inhabited

/-- `POEntry.is_fuzzy`: the `fuzzy` flag is present. -/
def is_fuzzy (e : POEntry) : Bool :=
  e.flags.contains "fuzzy".data

/-- `POEntry.is_translated`: translation non-empty and not the header. -/
def is_translated (e : POEntry) : Bool :=
  !e.msgstr.isEmpty && !e.is_header

/-- `POEntry.is_verified`: translated and not fuzzy (human-approved). -/
def is_verified (e : POEntry) : Bool :=
  is_translated e && !is_fuzzy e

/-- `POEntry.is_empty`: no translation yet, and not the header. -/
def is_empty_entry (e : POEntry) : Bool :=
  e.msgstr.isEmpty && !e.is_header

/-- `POEntry.get_context_summary`: derive a one-line context label from
the first source reference. -/
def get_context_summary (e : POEntry) : Str :=
  match e.references with
  | [] => "Unknown context".data
  | ref :: _ =>
    let parts := pySplit ':' ref
    if parts.length ≥ 1 then
      let filename := parts.headD []
      if pyContainsSub "gesture".data (pyLower filename) then
        "Gesture setting (".data ++ filename ++ [')']
      else if pyContainsSub "dialog".data (pyLower filename) then
        "Dialog UI (".data ++ filename ++ [')']
      else if pyContainsSub "settings".data (pyLower filename) then
        "Settings menu (".data ++ filename ++ [')']
      else if pyContainsSub "main.lua".data filename then
        "Main menu (".data ++ filename ++ [')']
      else
        "UI element (".data ++ filename ++ [')']
    else "Unknown context".data

/-- `POEntry.add_fuzzy`: add the fuzzy flag; if no `#,` comment line
exists, insert a new one right after the last `#:` reference comment
(or at index 0 when there is none).  This method is defined by the
source but never called by the apply pipeline. -/
def add_fuzzy (e : POEntry) : POEntry :=
  if e.flags.contains "fuzzy".data then e
  else
    let flags := e.flags ++ ["fuzzy".data]
    if e.comments.any (fun c => strStartsWith "#,".data c) then
      { e with flags := flags,
               comments := e.comments.map (fun c =>
                 if strStartsWith "#,".data c then c ++ ", fuzzy".data else c) }
    else
      let refIdxSucc := (enumF 0 e.comments).foldl
        (fun acc p => if strStartsWith "#:".data p.2 then p.1 + 1 else acc) 0
      { e with flags := flags,
               comments := e.comments.insertIdx refIdxSucc "#, fuzzy".data }

/-- The field a quoted continuation line appends to. -/
inductive PField where
  | fMsgid
  | fMsgidPlural
  | fMsgstr
  | fMsgstrIdx (idx : Nat)
deriving DecidableEq

/-- Parser state: accumulated entries, the current entry, the open
field, and the line counter. -/
structure PState where
  entries : List POEntry := []
  curr : Option POEntry := none
  field : Option PField := none
  lineNumber : Nat := 0
deriving DecidableEq

/-- The one runtime error the Python parser could in principle raise: an
`IndexError` on `msgstr_plural[idx]` in the continuation branch. -/
inductive PErr where
  | pluralIndex
deriving DecidableEq

/-- Flush the current entry into the accumulated list, exactly when it
has a non-empty msgid or is the header. -/
def flushInto (st : PState) : List POEntry :=
  match st.curr with
  | some e => if !e.msgid.isEmpty || e.is_header then st.entries ++ [e] else st.entries
  | none => st.entries

/-- The regex `msgstr\[(\d+)\] "(.*)"` applied with `re.match`: digits
are maximal, `(.*)` is greedy so the captured text runs to the last
`"` of the line. -/
def parseMsgstrIdxLine (line : Str) : Option (Nat × Str) :=
  if strStartsWith "msgstr[".data line then
    let rest := line.drop 7
    let digits := rest.takeWhile Char.isDigit
    if digits.isEmpty then none
    else
      let rest2 := rest.drop digits.length
      if strStartsWith "] \"".data rest2 then
        let rest3 := rest2.drop 3
        let tailRev := rest3.reverse.dropWhile (fun c => c ≠ '"')
        match tailRev with
        | '"' :: inner => some (digits.foldl (fun n c => n * 10 + (c.toNat - 48)) 0, inner.reverse)
        | _ => none
      else none
  else none

/-- Pad a list with empty strings up to length `n` (the
`while len(...) <= idx: append("")` loop). -/
def padTo (n : Nat) (l : List Str) : List Str :=
  l ++ List.replicate (n - l.length) []

/-- One iteration of the `for line in f` loop of `parse_po_file`,
branch for branch.  The only fallible step is the plural continuation
line, which indexes `msgstr_plural[idx]`. -/
def parseLine (st : PState) (line : Str) : Except PErr PState :=
  let ln := st.lineNumber + 1
  if (pyStrip line).isEmpty then
    .ok { entries := flushInto st, curr := none, field := none, lineNumber := ln }
  else
    let cur := match st.curr with
      | some e => e
      | none => { line_number := ln : POEntry }
    if strStartsWith "#".data line then
      let cur := { cur with comments := cur.comments ++ [line] }
      let cur :=
        if strStartsWith "#:".data line then
          { cur with references := cur.references ++ pySplitWs (pyStrip (line.drop 2)) }
        else if strStartsWith "#,".data line then
          { cur with flags := cur.flags ++ (pySplit ',' (pyStrip (line.drop 2))).map pyStrip }
        else cur
      .ok { st with curr := some cur, lineNumber := ln }
    else if strStartsWith "msgid ".data line then
      let value := pyStrip (line.drop 6)
      let cur :=
        if strStartsWith "\"".data value && strEndsWith "\"".data value then
          let cur := { cur with msgid := unescape_po_string (value.drop 1).dropLast }
          if cur.msgid.isEmpty && st.entries.isEmpty then { cur with is_header := true } else cur
        else cur
      .ok { st with curr := some cur, field := some .fMsgid, lineNumber := ln }
    else if strStartsWith "msgid_plural ".data line then
      let value := pyStrip (line.drop 13)
      let cur :=
        if strStartsWith "\"".data value && strEndsWith "\"".data value then
          { cur with msgid_plural := unescape_po_string (value.drop 1).dropLast }
        else cur
      .ok { st with curr := some cur, field := some .fMsgidPlural, lineNumber := ln }
    else if strStartsWith "msgstr ".data line then
      let value := pyStrip (line.drop 7)
      let cur :=
        if strStartsWith "\"".data value && strEndsWith "\"".data value then
          { cur with msgstr := unescape_po_string (value.drop 1).dropLast }
        else cur
      .ok { st with curr := some cur, field := some .fMsgstr, lineNumber := ln }
    else
      match parseMsgstrIdxLine line with
      | some (idx, raw) =>
        let value := unescape_po_string raw
        let padded := padTo (idx + 1) cur.msgstr_plural
        let cur := { cur with msgstr_plural := padded.set idx value }
        .ok { st with curr := some cur, field := some (.fMsgstrIdx idx), lineNumber := ln }
      | none =>
        if strStartsWith "\"".data line && strEndsWith "\"".data line then
          let value := unescape_po_string (line.drop 1).dropLast
          match st.field with
          | some .fMsgid =>
            .ok { st with curr := some { cur with msgid := cur.msgid ++ value }, lineNumber := ln }
          | some .fMsgidPlural =>
            .ok { st with curr := some { cur with msgid_plural := cur.msgid_plural ++ value }, lineNumber := ln }
          | some .fMsgstr =>
            .ok { st with curr := some { cur with msgstr := cur.msgstr ++ value }, lineNumber := ln }
          | some (.fMsgstrIdx idx) =>
            if idx < cur.msgstr_plural.length then
              let plural := cur.msgstr_plural.set idx ((cur.msgstr_plural.getD idx []) ++ value)
              .ok { st with curr := some { cur with msgstr_plural := plural }, lineNumber := ln }
            else .error .pluralIndex
          | none => .ok { st with curr := some cur, lineNumber := ln }
        else
          .ok { st with curr := some cur, lineNumber := ln }

/-- `parse_po_file`: scan the lines, then flush the last entry. -/
def parse_po_file (lines : List Str) : Except PErr (List POEntry) :=
  (lines.foldlM parseLine {}).map flushInto

/-- `format_msgstr_for_po`: one line for single-line strings, an empty
opening line plus one quoted segment per newline-separated part for
multi-line strings; the final empty part is omitted.  This function
decides "last part" by index (`i < len(parts) - 1`). -/
def format_msgstr_for_po (msgstr : Str) : List Str :=
  if msgstr.isEmpty then ["msgstr \"\"".data]
  else if msgstr.contains '\n' then
    let parts := pySplit '\n' msgstr
    "msgstr \"\"".data ::
      (enumF 0 parts).filterMap (fun p =>
        if p.1 < parts.length - 1 then
          some ('"' :: escape_po_string p.2 ++ ['\\', 'n', '"'])
        else if !p.2.isEmpty then
          some ('"' :: escape_po_string p.2 ++ ['"'])
        else none)
  else ["msgstr \"".data ++ escape_po_string msgstr ++ ['"']]

/-- The msgid lines written by `write_po_file`.  Note the source decides
"last part" by VALUE (`part != entry.msgid.split('\n')[-1]`), not by
index; this asymmetry with `format_msgstr_for_po` is preserved here. -/
def msgidLines (e : POEntry) : List Str :=
  if e.msgid.contains '\n' || e.msgid.length > 70 then
    let parts := pySplit '\n' e.msgid
    let lastPart := parts.getLastD []
    "msgid \"\"".data ::
      parts.filterMap (fun part =>
        if part ≠ lastPart then
          some ('"' :: escape_po_string part ++ ['\\', 'n', '"'])
        else if !part.isEmpty then
          some ('"' :: escape_po_string part ++ ['"'])
        else none)
  else ["msgid \"".data ++ escape_po_string e.msgid ++ ['"']]

/-- The non-comment lines of one serialized entry: msgid, optional
msgid_plural, msgstr, and the indexed plural msgstr lines. -/
def entryBodyLines (e : POEntry) : List Str :=
  msgidLines e
    ++ (if !e.msgid_plural.isEmpty then
          ["msgid_plural \"".data ++ escape_po_string e.msgid_plural ++ ['"']] else [])
    ++ format_msgstr_for_po e.msgstr
    ++ (enumF 0 e.msgstr_plural).map (fun p =>
          "msgstr[".data ++ (Nat.toDigits 10 p.1) ++ "] \"".data ++ escape_po_string p.2 ++ ['"'])

/-- Rewrite of one `#,` flag comment line by `write_po_file`: re-split
the flags, optionally remove or add `fuzzy`, and re-emit the line
unless the flag list became empty. -/
def rewriteFlagLine (shouldRemove shouldAdd : Bool) (comment : Str) : List Str :=
  let flags := (pySplit ',' (comment.drop 2)).map pyStrip
  let flags := if shouldRemove then flags.filter (fun fl => fl ≠ "fuzzy".data) else flags
  let flags := if shouldAdd && !flags.contains "fuzzy".data then flags ++ ["fuzzy".data] else flags
  if !flags.isEmpty then ["#, ".data ++ List.intercalate ", ".data flags] else []

/-- The comment-emission loop of `write_po_file`: ordinary comments are
copied verbatim, `#,` lines are rewritten; the Boolean records whether
any `#,` line was seen (`wrote_fuzzy_line`). -/
def processComments (shouldRemove shouldAdd : Bool) : List Str → List Str × Bool
  | [] => ([], false)
  | c :: rest =>
    let (restOut, restWrote) := processComments shouldRemove shouldAdd rest
    if strStartsWith "#,".data c then
      (rewriteFlagLine shouldRemove shouldAdd c ++ restOut, true)
    else (c :: restOut, restWrote)

/-- All lines of one serialized entry, fuzzy-flag handling included:
comments (flag lines rewritten), then a synthesized `#, fuzzy` line when
fuzzy must be added but no flag line exists, then the body. -/
def writeEntryLines (remove_fuzzy_for add_fuzzy_for : List Str) (e : POEntry) : List Str :=
  let shouldRemove := remove_fuzzy_for.contains e.msgid
  let shouldAdd := add_fuzzy_for.contains e.msgid && !is_verified e
  let pc := processComments shouldRemove shouldAdd e.comments
  pc.1
    ++ (if shouldAdd && !pc.2 then ["#, fuzzy".data] else [])
    ++ entryBodyLines e

/-- Join serialized entries with one blank line between consecutive
entries (and none after the last). -/
def joinEntries : List (List Str) → List Str
  | [] => []
  | [x] => x
  | x :: xs => x ++ [[]] ++ joinEntries xs

/-- `write_po_file`: serialize all entries to a list of lines. -/
def write_po_file (remove_fuzzy_for add_fuzzy_for : List Str) (entries : List POEntry) : List Str :=
  joinEntries (entries.map (writeEntryLines remove_fuzzy_for add_fuzzy_for))

/-- Extraction mode of `filter_entries` / `extract_batch`. -/
inductive Mode where
  | empty
  | fuzzy
  | all
deriving DecidableEq

/-- `filter_entries`: header and id-less entries are dropped, verified
entries are dropped unconditionally, then the mode decides. -/
def filter_entries (entries : List POEntry) (mode : Mode) : List POEntry :=
  entries.filter (fun e =>
    !(e.is_header || e.msgid.isEmpty) && !is_verified e &&
      (match mode with
       | .empty => is_empty_entry e
       | .fuzzy => is_fuzzy e
       | .all => true))

/-- One record of a batch export, as built inside `extract_batch`. -/
structure BatchRecord where
  id : Nat
  msgid : Str
  context : Str
  references : List Str
  current_msgstr : Str
  is_fuzzy : Bool
  similar_strings : List Str
deriving DecidableEq

/-- The reverse map `msgid -> group name` built from the similarity map
(later bindings overwrite earlier ones, as for a Python dict). -/
def groupOf (similar_map : List (Str × List Str)) (m : Str) : Option Str :=
  similar_map.foldl (fun acc p => p.2.foldl (fun a mid => if mid = m then some p.1 else a) acc) none

/-- `similar_map[group]` lookup (keys are unique in a Python dict). -/
def simLookup (similar_map : List (Str × List Str)) (g : Str) : List Str :=
  ((similar_map.find? (fun p => p.1 = g)).map (fun p => p.2)).getD []

/-- The up-to-five sibling strings of an entry's similarity group. -/
def similarOf (similar_map : List (Str × List Str)) (m : Str) : List Str :=
  match groupOf similar_map m with
  | none => []
  | some g => ((simLookup similar_map g).filter (fun x => x ≠ m)).take 5

/-- One batch record: 1-indexed global display id, source text, context
label, up to 3 references, current translation, fuzzy flag, siblings. -/
def mkRecord (similar_map : List (Str × List Str)) (gid : Nat) (e : POEntry) : BatchRecord :=
  { id := gid
    msgid := e.msgid
    context := get_context_summary e
    references := e.references.take 3
    current_msgstr := e.msgstr
    is_fuzzy := is_fuzzy e
    similar_strings := similarOf similar_map e.msgid }

/-- `extract_batch`: filter, compute the batch count, slice the
requested 1-indexed batch and build its records.  `batch_size = 0`
would raise `ZeroDivisionError` in Python; all theorems assume
`1 ≤ batch_size`. -/
def extract_batch (entries : List POEntry) (batch_num : Int) (batch_size : Nat)
    (similar_map : List (Str × List Str)) (mode : Mode) : List BatchRecord × Nat :=
  let translatable := filter_entries entries mode
  let total_batches : Nat :=
    if translatable.isEmpty then 0 else (translatable.length + batch_size - 1) / batch_size
  if batch_num < 1 || batch_num > (total_batches : Int) then ([], total_batches)
  else
    let start := (batch_num - 1).toNat * batch_size
    let endIdx := min (start + batch_size) translatable.length
    let batch_entries := (translatable.drop start).take (endIdx - start)
    ((enumF 0 batch_entries).map (fun p => mkRecord similar_map (start + p.1 + 1) p.2),
     total_batches)

/-- One item of an import document; `none` models an absent JSON key. -/
structure ImportItem where
  msgid : Option Str := none
  msgstr : Option Str := none

/-- An import document: either a `translations` list or an `entries`
list (the former wins when both are present). -/
structure ImportDoc where
  translations : Option (List ImportItem) := none
  entries : Option (List ImportItem) := none

/-- `data.get("translations", data.get("entries", []))`. -/
def items_of (doc : ImportDoc) : List ImportItem :=
  doc.translations.getD (doc.entries.getD [])

/-- The two error shapes collected by `import_translations` (the Python
messages are presentation; their data is the item or the msgid). -/
inductive ImpError where
  | missingMsgid (item : ImportItem)
  | unknownMsgid (m : Str)

/-- Accumulated result of an import. -/
structure ImportResult where
  translations : List (Str × Str) := []
  errors : List ImpError := []
  skipped : List Str := []

/-- The lookup `{e.msgid: e for e in entries if e.msgid}[m]`: the last
entry with non-empty msgid equal to `m`, if any. -/
def msgidLookup (entries : List POEntry) (m : Str) : Option POEntry :=
  (entries.filter (fun e => !e.msgid.isEmpty)).foldl
    (fun acc e => if e.msgid = m then some e else acc) none

/-- Python-dict insertion: overwrite the value in place when the key
exists, else append. -/
def dictInsert (d : List (Str × Str)) (k v : Str) : List (Str × Str) :=
  if d.any (fun p => p.1 = k) then d.map (fun p => if p.1 = k then (k, v) else p)
  else d ++ [(k, v)]

/-- Python-set insertion (membership is all the scripts use). -/
def skInsert (s : List Str) (m : Str) : List Str :=
  if s.contains m then s else s ++ [m]

/-- One iteration of the item loop of `import_translations`. -/
def import_step (entries : List POEntry) (st : ImportResult) (item : ImportItem) : ImportResult :=
  match item.msgid with
  | none => { st with errors := st.errors ++ [.missingMsgid item] }
  | some m =>
    if m.isEmpty then { st with errors := st.errors ++ [.missingMsgid item] }
    else
      match msgidLookup entries m with
      | none => { st with errors := st.errors ++ [.unknownMsgid m] }
      | some e =>
        if is_verified e then { st with skipped := skInsert st.skipped m }
        else
          match item.msgstr with
          | some v => { st with translations := dictInsert st.translations m v }
          | none => st

/-- `import_translations`: fold the item loop over the document. -/
def import_translations (doc : ImportDoc) (entries : List POEntry) : ImportResult :=
  (items_of doc).foldl (import_step entries) {}

/-- The per-entry effect of `apply_translations`: overwrite msgstr when
the id is a key of the mapping and the entry is not verified. -/
def apply_one (translations : List (Str × Str)) (e : POEntry) : POEntry :=
  match translations.lookup e.msgid with
  | some v => if is_verified e then e else { e with msgstr := v }
  | none => e

/-- `apply_translations`: mutate the entries in place and count the
writes (modelled as a map plus the count of mutated entries). -/
def apply_translations (entries : List POEntry) (translations : List (Str × Str)) :
    List POEntry × Nat :=
  (entries.map (apply_one translations),
   (entries.filter (fun e =>
      (translations.lookup e.msgid).isSome && !is_verified e)).length)

/-- The apply path of `main`: apply the merged translations, then
serialize with `remove_fuzzy_for` = applied keys when `--verified` was
given, else `add_fuzzy_for` = applied keys. -/
def applyPipelineLines (entries : List POEntry) (translations : List (Str × Str))
    (verified : Bool) : List Str :=
  let applied := (apply_translations entries translations).1
  let keys := translations.map (fun p => p.1)
  if verified then write_po_file keys [] applied
  else write_po_file [] keys applied

/-- Brand names that must never be translated (validate_translations.py). -/
def BRAND_NAMES : List Str :=
  ["KOAssistant".data, "KOReader".data, "Claude".data, "GPT".data, "Gemini".data,
   "OpenAI".data, "Anthropic".data, "DeepSeek".data, "Ollama".data, "Groq".data,
   "Mistral".data, "xAI".data, "OpenRouter".data, "Qwen".data, "Kimi".data,
   "Together".data, "Fireworks".data, "SambaNova".data, "Cohere".data, "Doubao".data]

/-- The known-mistranslation table of `validate_entry` (only the
KOAssistant row exists in the source). -/
def mistranslations (brand : Str) : List Str :=
  if brand = "KOAssistant".data then
    ["KOAsistente".data, "KOAssistent".data, "KOAssistente".data,
     "KO助手".data, "مساعد KO".data]
  else []

/-- The numbered placeholder token `%i` for `i` in 1..9. -/
def phTok (i : Nat) : Str :=
  ['%', Char.ofNat (48 + i)]

/-- `re.search(r'%[1-9]', s)`: does `s` contain a numbered token? -/
def hasNumTok : Str → Bool
  | '%' :: c :: rest =>
    if '1' ≤ c && c ≤ '9' then true else hasNumTok (c :: rest)
  | _ :: rest => hasNumTok rest
  | [] => false

/-- `re.findall(r'%[sdf]', s)`: all printf-style tokens, left to right,
non-overlapping. -/
def findWrong : Str → List Str
  | '%' :: c :: rest =>
    if c = 's' || c = 'd' || c = 'f' then ['%', c] :: findWrong rest
    else findWrong (c :: rest)
  | _ :: rest => findWrong rest
  | [] => []

/-- Structured validation issues.  The Python code renders each as a
formatted message (with the entry's line number); the payloads here are
the data interpolated into those messages.  Warning-only checks that
need no data for any claim (`TECHNICAL_TERM_TRANSLATED`, which needs a
word-boundary regex) are represented by their check name only. -/
inductive Issue where
  | placeholderMismatch (token : Str) (msgidCount msgstrCount : Nat)
  | wrongPlaceholderFormat (found : List Str)
  | brandNameTranslated (brand mistranslation : Str)
  | emptyTranslation (msgid : Str)
  | brandNameMissing (brand : Str)
  | newlineMismatch (msgidCount msgstrCount : Nat)
deriving DecidableEq

/-- The brand-name check loop over a brand list: for each brand
occurring in the source but not in the translation, an error when a
known mistranslation is found, else a warning. -/
def brandLoop (msgid msgstr : Str) : List Str → List Issue × List Issue
  | [] => ([], [])
  | brand :: rest =>
    let acc := brandLoop msgid msgstr rest
    if pyContainsSub brand msgid && !pyContainsSub brand msgstr then
      match (mistranslations brand).find? (fun alt => pyContainsSub alt msgstr) with
      | some alt => (.brandNameTranslated brand alt :: acc.1, acc.2)
      | none => (acc.1, .brandNameMissing brand :: acc.2)
    else acc

/-- The brand-name check of `validate_entry`, over `BRAND_NAMES`. -/
def brandIssues (msgid msgstr : Str) : List Issue × List Issue :=
  brandLoop msgid msgstr BRAND_NAMES

/-- `validate_entry` from validate_translations.py, returning the
`(errors, warnings)` buckets of the `ValidationResult`.  The
technical-term check (warning only, requires `\b` regex semantics) is
omitted; it contributes no errors and gates no control flow. -/
def validate_entry (e : POEntry) : List Issue × List Issue :=
  if e.msgid.isEmpty then ([], [])
  else if e.msgstr.isEmpty then ([], [.emptyTranslation e.msgid])
  else
    let phErrs := ((List.range 9).map (fun i => i + 1)).filterMap (fun i =>
      let a := pyCount (phTok i) e.msgid
      let b := pyCount (phTok i) e.msgstr
      if a ≠ b then some (Issue.placeholderMismatch (phTok i) a b) else none)
    let wrongErrs :=
      if hasNumTok e.msgid then
        let w := findWrong e.msgstr
        if !w.isEmpty then [Issue.wrongPlaceholderFormat w] else []
      else []
    let nlWarns :=
      if pyCount ['\n'] e.msgid ≠ pyCount ['\n'] e.msgstr then
        [Issue.newlineMismatch (pyCount ['\n'] e.msgid) (pyCount ['\n'] e.msgstr)]
      else []
    (phErrs ++ wrongErrs ++ (brandIssues e.msgid e.msgstr).1,
     (brandIssues e.msgid e.msgstr).2 ++ nlWarns)

/-- The failing PO text for the round-trip claim: one entry whose msgid
is the multi-line string `"x\nx"` (two segments with equal text). -/
def c3Input : List Str :=
  ["msgid \"\"".data, "\"x\\n\"".data, "\"x\"".data, "msgstr \"y\"".data]

/-- The msgids decoded from a list of lines (empty on a parse error). -/
def decodeMsgids (lines : List Str) : List Str :=
  match parse_po_file lines with
  | .ok es => es.map (fun e => e.msgid)
  | .error _ => []

/-- Decode, then re-encode with no fuzzy modifications. -/
def reEncode (lines : List Str) : List Str :=
  match parse_po_file lines with
  | .ok es => write_po_file [] [] es
  | .error _ => []

/-- Claim C3: decode-encode-decode reproduces every entry's id.  FALSE:
`msgidLines` decides "is this the last segment" by comparing segment
text with the final segment's text, so an earlier segment equal in
value to the last one loses its trailing newline escape.  The source
`"x\nx"` re-decodes as `"xx"`. -/
theorem po_roundtrip_msgid_newline_bug :
    decodeMsgids c3Input = [['x', '\n', 'x']]
    ∧ decodeMsgids (reEncode c3Input) = [['x', 'x']]
    ∧ decodeMsgids (reEncode c3Input) ≠ decodeMsgids c3Input := by
  decide

/-- An empty, non-fuzzy entry with id `a` (the common case for an
extraction in mode `empty`). -/
def entC2 : POEntry := { msgid := "a".data }

/-- Claim C2: on the non-verified apply path, every applied id gets the
fuzzy flag in the serialized output.  FALSE: `write_po_file` evaluates
`not entry.is_verified` AFTER `apply_translations` has already written
the new msgstr, so a previously empty non-fuzzy entry looks verified,
gets no fuzzy line, and re-decodes as verified. -/
theorem apply_fuzzy_not_added_bug :
    is_verified entC2 = false
    ∧ (apply_translations [entC2] [("a".data, "x".data)]).2 = 1
    ∧ applyPipelineLines [entC2] [("a".data, "x".data)] false
        = ["msgid \"a\"".data, "msgstr \"x\"".data]
    ∧ ("#, fuzzy".data ∉ applyPipelineLines [entC2] [("a".data, "x".data)] false)
    ∧ (match parse_po_file (applyPipelineLines [entC2] [("a".data, "x".data)] false) with
       | .ok es => es.map is_verified
       | .error _ => []) = [true] := by
  decide

theorem strStartsWith_append_self (p t : Str) : strStartsWith p (p ++ t) = true := by
  induction p with
  | nil => rfl
  | cons q qs ih => simp [strStartsWith, ih]

theorem pyReplaceF_fuel_eq (p r : Str) :
    ∀ f1 f2 s, s.length ≤ f1 → s.length ≤ f2 → pyReplaceF p r f1 s = pyReplaceF p r f2 s := by
  intro f1
  induction f1 with
  | zero =>
    intro f2 s h1 _
    have : s = [] := List.eq_nil_of_length_eq_zero (Nat.le_zero.mp h1)
    subst this
    cases f2 <;> rfl
  | succ f ih =>
    intro f2 s h1 h2
    cases s with
    | nil => cases f2 <;> rfl
    | cons c cs =>
      cases f2 with
      | zero => simp at h2
      | succ f2' =>
        cases p with
        | nil => rfl
        | cons q qs =>
          simp only [pyReplaceF]
          by_cases hpre : strStartsWith (q :: qs) (c :: cs) = true
          · rw [if_pos hpre, if_pos hpre]
            congr 1
            have hd : (cs.drop ((q :: qs).length - 1)).length ≤ cs.length := by
              simp [List.length_drop]
            exact ih f2' _ (Nat.le_trans hd (Nat.le_of_succ_le_succ h1))
              (Nat.le_trans hd (Nat.le_of_succ_le_succ h2))
          · rw [if_neg hpre, if_neg hpre]
            congr 1
            exact ih f2' cs (Nat.le_of_succ_le_succ h1) (Nat.le_of_succ_le_succ h2)

theorem pyReplace_nil (p r : Str) : pyReplace p r [] = [] := by
  cases p <;> rfl

theorem pyReplace_cons_nomatch {p : Str} (r : Str) {c : Char} {cs : Str}
    (h : strStartsWith p (c :: cs) = false) :
    pyReplace p r (c :: cs) = c :: pyReplace p r cs := by
  cases p with
  | nil => simp [strStartsWith] at h
  | cons q qs =>
    show pyReplaceF (q :: qs) r (cs.length + 1) (c :: cs) = _
    simp only [pyReplaceF]
    rw [if_neg (by simp [h])]
    rfl

theorem pyReplace_match (q : Char) (qs r t : Str) :
    pyReplace (q :: qs) r ((q :: qs) ++ t) = r ++ pyReplace (q :: qs) r t := by
  show pyReplaceF (q :: qs) r ((qs ++ t).length + 1) (q :: (qs ++ t)) = _
  simp only [pyReplaceF]
  have hpre : strStartsWith (q :: qs) (q :: (qs ++ t)) = true := strStartsWith_append_self (q :: qs) t
  rw [if_pos hpre]
  congr 1
  have hdrop : (qs ++ t).drop ((q :: qs).length - 1) = t := by
    simp [List.drop_left]
  rw [hdrop]
  exact pyReplaceF_fuel_eq _ _ _ _ _ (by simp) (Nat.le_refl _)

def concatMapC (f : Char → Str) : Str → Str
  | [] => []
  | c :: cs => f c ++ concatMapC f cs

theorem concatMapC_append (f : Char → Str) (s t : Str) :
    concatMapC f (s ++ t) = concatMapC f s ++ concatMapC f t := by
  induction s with
  | nil => rfl
  | cons c cs ih => simp [concatMapC, ih]

theorem concatMapC_congr {f g : Char → Str} (h : ∀ c, f c = g c) (s : Str) :
    concatMapC f s = concatMapC g s := by
  induction s with
  | nil => rfl
  | cons c cs ih => simp [concatMapC, h c, ih]

theorem concatMapC_comp (f g : Char → Str) (s : Str) :
    concatMapC g (concatMapC f s) = concatMapC (fun c => concatMapC g (f c)) s := by
  induction s with
  | nil => rfl
  | cons c cs ih => simp [concatMapC, concatMapC_append, ih]

theorem pyReplace_single (a : Char) (r : Str) (s : Str) :
    pyReplace [a] r s = concatMapC (fun c => if c = a then r else [c]) s := by
  induction s with
  | nil => simp [pyReplace_nil, concatMapC]
  | cons c cs ih =>
    by_cases hc : c = a
    · subst hc
      have := pyReplace_match c [] r cs
      simp only [List.cons_append, List.nil_append] at this
      rw [this, ih]
      simp [concatMapC]
    · have hpre : strStartsWith [a] (c :: cs) = false := by
        simp [strStartsWith]
        exact fun h => absurd h.symm hc
      rw [pyReplace_cons_nomatch r hpre, ih]
      simp [concatMapC, hc]

/-- Per-character form of `escape_po_string`. -/
def escChar (c : Char) : Str :=
  if c = '\\' then ['\\', '\\']
  else if c = '"' then ['\\', '"']
  else if c = '\n' then ['\\', 'n']
  else if c = '\t' then ['\\', 't']
  else [c]

theorem escape_po_string_eq_concatMapC (s : Str) :
    escape_po_string s = concatMapC escChar s := by
  unfold escape_po_string
  rw [pyReplace_single, pyReplace_single, pyReplace_single, pyReplace_single,
      concatMapC_comp, concatMapC_comp, concatMapC_comp]
  apply concatMapC_congr
  intro c
  by_cases h1 : c = '\\'
  · subst h1; decide
  by_cases h2 : c = '"'
  · subst h2; decide
  by_cases h3 : c = '\n'
  · subst h3; decide
  by_cases h4 : c = '\t'
  · subst h4; decide
  simp [concatMapC, escChar, h1, h2, h3, h4]

theorem escSafe_tail {c : Char} {l : Str} (h : escSafe (c :: l) = true) : escSafe l = true := by
  cases l with
  | nil => rfl
  | cons b r =>
    have := (Bool.and_eq_true _ _).mp h
    exact this.2

theorem escSafe_backslash {d : Char} {l : Str} (h : escSafe ('\\' :: d :: l) = true) :
    d ≠ 'n' ∧ d ≠ 't' := by
  have := (Bool.and_eq_true _ _).mp h
  have h1 := this.1
  simp at h1
  exact h1

/-- Per-character form of the string after the `\n`-unescape pass. -/
def ubChar1 (c : Char) : Str :=
  if c = '\\' then ['\\', '\\']
  else if c = '"' then ['\\', '"']
  else if c = '\t' then ['\\', 't']
  else [c]

theorem unescape_stage1 (s : Str) (h : escSafe s = true) :
    pyReplace ['\\', 'n'] ['\n'] (concatMapC escChar s) = concatMapC ubChar1 s := by
  induction s with
  | nil => simp [concatMapC, pyReplace_nil]
  | cons c s' ih =>
    have htail := escSafe_tail h
    by_cases h1 : c = '\\'
    · subst h1
      have e1 : concatMapC escChar ('\\' :: s') = '\\' :: '\\' :: concatMapC escChar s' := by
        simp [concatMapC, escChar]
      rw [e1]
      have hm1 : strStartsWith ['\\', 'n'] ('\\' :: '\\' :: concatMapC escChar s') = false := by
        simp [strStartsWith]
      rw [pyReplace_cons_nomatch _ hm1]
      have hm2 : strStartsWith ['\\', 'n'] ('\\' :: concatMapC escChar s') = false := by
        cases s' with
        | nil => simp [concatMapC, strStartsWith]
        | cons d s'' =>
          obtain ⟨hdn, hdt⟩ := escSafe_backslash h
          by_cases hd1 : d = '\\'
          · subst hd1; simp [concatMapC, escChar, strStartsWith]
          by_cases hd2 : d = '"'
          · subst hd2; simp [concatMapC, escChar, strStartsWith]
          by_cases hd3 : d = '\n'
          · subst hd3; simp [concatMapC, escChar, strStartsWith]
          by_cases hd4 : d = '\t'
          · subst hd4; simp [concatMapC, escChar, strStartsWith]
          · simp [concatMapC, escChar, hd1, hd2, hd3, hd4, strStartsWith]
            exact fun hh => absurd hh.symm hdn
      rw [pyReplace_cons_nomatch _ hm2, ih htail]
      simp [concatMapC, ubChar1]
    by_cases h2 : c = '"'
    · subst h2
      have e1 : concatMapC escChar ('"' :: s') = '\\' :: '"' :: concatMapC escChar s' := by
        simp [concatMapC, escChar]
      rw [e1]
      have hm1 : strStartsWith ['\\', 'n'] ('\\' :: '"' :: concatMapC escChar s') = false := by
        simp [strStartsWith]
      rw [pyReplace_cons_nomatch _ hm1]
      have hm2 : strStartsWith ['\\', 'n'] ('"' :: concatMapC escChar s') = false := by
        simp [strStartsWith]
      rw [pyReplace_cons_nomatch _ hm2, ih htail]
      simp [concatMapC, ubChar1]
    by_cases h3 : c = '\n'
    · subst h3
      have e1 : concatMapC escChar ('\n' :: s') = ['\\', 'n'] ++ concatMapC escChar s' := by
        simp [concatMapC, escChar]
      rw [e1]
      have := pyReplace_match '\\' ['n'] ['\n'] (concatMapC escChar s')
      rw [this, ih htail]
      simp [concatMapC, ubChar1]
    by_cases h4 : c = '\t'
    · subst h4
      have e1 : concatMapC escChar ('\t' :: s') = '\\' :: 't' :: concatMapC escChar s' := by
        simp [concatMapC, escChar]
      rw [e1]
      have hm1 : strStartsWith ['\\', 'n'] ('\\' :: 't' :: concatMapC escChar s') = false := by
        simp [strStartsWith]
      rw [pyReplace_cons_nomatch _ hm1]
      have hm2 : strStartsWith ['\\', 'n'] ('t' :: concatMapC escChar s') = false := by
        simp [strStartsWith]
      rw [pyReplace_cons_nomatch _ hm2, ih htail]
      simp [concatMapC, ubChar1]
    · have e1 : concatMapC escChar (c :: s') = c :: concatMapC escChar s' := by
        simp [concatMapC, escChar, h1, h2, h3, h4]
      rw [e1]
      have hm1 : strStartsWith ['\\', 'n'] (c :: concatMapC escChar s') = false := by
        simp [strStartsWith]
        exact fun hh => absurd hh.symm h1
      rw [pyReplace_cons_nomatch _ hm1, ih htail]
      simp [concatMapC, ubChar1, h1, h2, h4]

/-- Per-character form after the `\t`-unescape pass. -/
def ubChar2 (c : Char) : Str :=
  if c = '\\' then ['\\', '\\']
  else if c = '"' then ['\\', '"']
  else [c]

theorem unescape_stage2 (s : Str) (h : escSafe s = true) :
    pyReplace ['\\', 't'] ['\t'] (concatMapC ubChar1 s) = concatMapC ubChar2 s := by
  induction s with
  | nil => simp [concatMapC, pyReplace_nil]
  | cons c s' ih =>
    have htail := escSafe_tail h
    by_cases h1 : c = '\\'
    · subst h1
      have e1 : concatMapC ubChar1 ('\\' :: s') = '\\' :: '\\' :: concatMapC ubChar1 s' := by
        simp [concatMapC, ubChar1]
      rw [e1]
      have hm1 : strStartsWith ['\\', 't'] ('\\' :: '\\' :: concatMapC ubChar1 s') = false := by
        simp [strStartsWith]
      rw [pyReplace_cons_nomatch _ hm1]
      have hm2 : strStartsWith ['\\', 't'] ('\\' :: concatMapC ubChar1 s') = false := by
        cases s' with
        | nil => simp [concatMapC, strStartsWith]
        | cons d s'' =>
          obtain ⟨hdn, hdt⟩ := escSafe_backslash h
          by_cases hd1 : d = '\\'
          · subst hd1; simp [concatMapC, ubChar1, strStartsWith]
          by_cases hd2 : d = '"'
          · subst hd2; simp [concatMapC, ubChar1, strStartsWith]
          by_cases hd4 : d = '\t'
          · subst hd4; simp [concatMapC, ubChar1, strStartsWith]
          · simp [concatMapC, ubChar1, hd1, hd2, hd4, strStartsWith]
            exact fun hh => absurd hh.symm hdt
      rw [pyReplace_cons_nomatch _ hm2, ih htail]
      simp [concatMapC, ubChar2]
    by_cases h2 : c = '"'
    · subst h2
      have e1 : concatMapC ubChar1 ('"' :: s') = '\\' :: '"' :: concatMapC ubChar1 s' := by
        simp [concatMapC, ubChar1]
      rw [e1]
      have hm1 : strStartsWith ['\\', 't'] ('\\' :: '"' :: concatMapC ubChar1 s') = false := by
        simp [strStartsWith]
      rw [pyReplace_cons_nomatch _ hm1]
      have hm2 : strStartsWith ['\\', 't'] ('"' :: concatMapC ubChar1 s') = false := by
        simp [strStartsWith]
      rw [pyReplace_cons_nomatch _ hm2, ih htail]
      simp [concatMapC, ubChar2]
    by_cases h4 : c = '\t'
    · subst h4
      have e1 : concatMapC ubChar1 ('\t' :: s') = ['\\', 't'] ++ concatMapC ubChar1 s' := by
        simp [concatMapC, ubChar1]
      rw [e1]
      rw [pyReplace_match '\\' ['t'] ['\t'] (concatMapC ubChar1 s'), ih htail]
      simp [concatMapC, ubChar2]
    · have e1 : concatMapC ubChar1 (c :: s') = c :: concatMapC ubChar1 s' := by
        simp [concatMapC, ubChar1, h1, h2, h4]
      rw [e1]
      have hm1 : strStartsWith ['\\', 't'] (c :: concatMapC ubChar1 s') = false := by
        simp [strStartsWith]
        exact fun hh => absurd hh.symm h1
      rw [pyReplace_cons_nomatch _ hm1, ih htail]
      simp [concatMapC, ubChar2, h1, h2]

/-- Per-character form after the `\"`-unescape pass. -/
def ubChar3 (c : Char) : Str :=
  if c = '\\' then ['\\', '\\'] else [c]

theorem unescape_stage3 (s : Str) :
    pyReplace ['\\', '"'] ['"'] (concatMapC ubChar2 s) = concatMapC ubChar3 s := by
  induction s with
  | nil => simp [concatMapC, pyReplace_nil]
  | cons c s' ih =>
    by_cases h1 : c = '\\'
    · subst h1
      have e1 : concatMapC ubChar2 ('\\' :: s') = '\\' :: '\\' :: concatMapC ubChar2 s' := by
        simp [concatMapC, ubChar2]
      rw [e1]
      have hm1 : strStartsWith ['\\', '"'] ('\\' :: '\\' :: concatMapC ubChar2 s') = false := by
        simp [strStartsWith]
      rw [pyReplace_cons_nomatch _ hm1]
      have hm2 : strStartsWith ['\\', '"'] ('\\' :: concatMapC ubChar2 s') = false := by
        cases s' with
        | nil => simp [concatMapC, strStartsWith]
        | cons d s'' =>
          by_cases hd1 : d = '\\'
          · subst hd1; simp [concatMapC, ubChar2, strStartsWith]
          by_cases hd2 : d = '"'
          · subst hd2; simp [concatMapC, ubChar2, strStartsWith]
          · simp [concatMapC, ubChar2, hd1, hd2, strStartsWith]
            exact fun hh => absurd hh.symm hd2
      rw [pyReplace_cons_nomatch _ hm2, ih]
      simp [concatMapC, ubChar3]
    by_cases h2 : c = '"'
    · subst h2
      have e1 : concatMapC ubChar2 ('"' :: s') = ['\\', '"'] ++ concatMapC ubChar2 s' := by
        simp [concatMapC, ubChar2]
      rw [e1]
      rw [pyReplace_match '\\' ['"'] ['"'] (concatMapC ubChar2 s'), ih]
      simp [concatMapC, ubChar3]
    · have e1 : concatMapC ubChar2 (c :: s') = c :: concatMapC ubChar2 s' := by
        simp [concatMapC, ubChar2, h1, h2]
      rw [e1]
      have hm1 : strStartsWith ['\\', '"'] (c :: concatMapC ubChar2 s') = false := by
        simp [strStartsWith]
        exact fun hh => absurd hh.symm h1
      rw [pyReplace_cons_nomatch _ hm1, ih]
      simp [concatMapC, ubChar3, h1]

theorem unescape_stage4 (s : Str) :
    pyReplace ['\\', '\\'] ['\\'] (concatMapC ubChar3 s) = s := by
  induction s with
  | nil => simp [concatMapC, pyReplace_nil]
  | cons c s' ih =>
    by_cases h1 : c = '\\'
    · subst h1
      have e1 : concatMapC ubChar3 ('\\' :: s') = ['\\', '\\'] ++ concatMapC ubChar3 s' := by
        simp [concatMapC, ubChar3]
      rw [e1]
      rw [pyReplace_match '\\' ['\\'] ['\\'] (concatMapC ubChar3 s'), ih]
      rfl
    · have e1 : concatMapC ubChar3 (c :: s') = c :: concatMapC ubChar3 s' := by
        simp [concatMapC, ubChar3, h1]
      rw [e1]
      have hm1 : strStartsWith ['\\', '\\'] (c :: concatMapC ubChar3 s') = false := by
        simp [strStartsWith]
        exact fun hh => absurd hh.symm h1
      rw [pyReplace_cons_nomatch _ hm1, ih]

/-- Claim C4 (counterexample): `unescape_po_string` does NOT invert
`escape_po_string` on every string.  For the two-character string
backslash-`n`, escaping yields `\\n`, whose unescape pass for `\n`
fires on its last two characters, producing backslash-newline. -/
theorem escape_unescape_cex :
    unescape_po_string (escape_po_string ['\\', 'n']) = ['\\', '\n']
    ∧ unescape_po_string (escape_po_string ['\\', 'n']) ≠ ['\\', 'n'] := by
  decide

/-- Claim C4 (amended): on every string in which no backslash is
immediately followed by a literal `n` or `t`, the escape function is
exactly inverted by the unescape function.  (All strings produced by
`unescape_po_string` itself — hence all decoded PO field values — are
of this shape.) -/
theorem escape_unescape_roundtrip (s : Str) (h : escSafe s = true) :
    unescape_po_string (escape_po_string s) = s := by
  unfold unescape_po_string
  rw [escape_po_string_eq_concatMapC, unescape_stage1 s h, unescape_stage2 s h,
      unescape_stage3 s, unescape_stage4 s]

theorem escape_unescape_roundtrip_witness :
    escSafe "a\nb\tc\\d\"e".data = true
    ∧ unescape_po_string (escape_po_string "a\nb\tc\\d\"e".data) = "a\nb\tc\\d\"e".data :=
  ⟨by decide, escape_unescape_roundtrip "a\nb\tc\\d\"e".data (by decide)⟩

theorem msgidLookup_some {entries : List POEntry} {m : Str} {e2 : POEntry}
    (h : msgidLookup entries m = some e2) : e2 ∈ entries ∧ e2.msgid = m ∧ m ≠ [] := by
  unfold msgidLookup at h
  have aux : ∀ (l : List POEntry) (acc : Option POEntry),
      l.foldl (fun acc e => if e.msgid = m then some e else acc) acc = some e2 →
      acc = some e2 ∨ (e2 ∈ l ∧ e2.msgid = m) := by
    intro l
    induction l with
    | nil => intro acc h; exact Or.inl h
    | cons x xs ih =>
      intro acc h
      rcases ih _ h with hx | hmem
      · have hx2 : (if x.msgid = m then some x else acc) = some e2 := hx
        by_cases hxm : x.msgid = m
        · rw [if_pos hxm] at hx2
          right
          obtain rfl : x = e2 := Option.some.inj hx2
          exact ⟨List.mem_cons_self _ _, hxm⟩
        · rw [if_neg hxm] at hx2
          exact Or.inl hx2
      · exact Or.inr ⟨List.mem_cons_of_mem _ hmem.1, hmem.2⟩
  rcases aux _ _ h with hx | hmem
  · exact absurd hx (by simp)
  · refine ⟨(List.mem_filter.mp hmem.1).1, hmem.2, ?_⟩
    have hne := (List.mem_filter.mp hmem.1).2
    intro hm
    rw [hmem.2, hm] at hne
    simp at hne

theorem msgidLookup_self {entries : List POEntry} {e : POEntry}
    (hE : e ∈ entries) (hM : e.msgid ≠ [])
    (hU : ∀ e2 ∈ entries, e2.msgid = e.msgid → e2 = e) :
    msgidLookup entries e.msgid = some e := by
  unfold msgidLookup
  have aux : ∀ (l : List POEntry) (acc : Option POEntry),
      (∀ x ∈ l, x.msgid = e.msgid → x = e) →
      l.foldl (fun acc x => if x.msgid = e.msgid then some x else acc) acc
        = if l.any (fun x => x.msgid = e.msgid) then some e else acc := by
    intro l
    induction l with
    | nil => intro acc _; simp
    | cons x xs ih =>
      intro acc hprop
      by_cases hxm : x.msgid = e.msgid
      · have hx : x = e := hprop x (List.mem_cons_self _ _) hxm
        simp only [List.foldl_cons, if_pos hxm, List.any_cons]
        rw [ih _ (fun y hy => hprop y (List.mem_cons_of_mem _ hy))]
        subst hx
        simp [hxm]
      · simp only [List.foldl_cons, if_neg hxm, List.any_cons]
        rw [ih _ (fun y hy => hprop y (List.mem_cons_of_mem _ hy))]
        simp [hxm]
  rw [aux _ none (fun x hx => hU x (List.mem_filter.mp hx).1)]
  have hmem : e ∈ entries.filter (fun e => !e.msgid.isEmpty) := by
    refine List.mem_filter.mpr ⟨hE, ?_⟩
    simp [hM]
  rw [if_pos (List.any_eq_true.mpr ⟨e, hmem, by simp⟩)]

theorem dictInsert_mem {d : List (Str × Str)} {k v : Str} {p : Str × Str}
    (h : p ∈ dictInsert d k v) : p ∈ d ∨ p.1 = k := by
  unfold dictInsert at h
  by_cases hany : d.any (fun p => p.1 = k)
  · rw [if_pos hany] at h
    rcases List.mem_map.mp h with ⟨q, hq, hfq⟩
    by_cases hqk : q.1 = k
    · rw [if_pos hqk] at hfq
      right; rw [← hfq]
    · rw [if_neg hqk] at hfq
      exact Or.inl (hfq ▸ hq)
  · rw [if_neg hany] at h
    rcases List.mem_append.mp h with hq | hq
    · exact Or.inl hq
    · right
      have := List.mem_singleton.mp hq
      rw [this]

theorem skInsert_mem_self (s : List Str) (m : Str) : m ∈ skInsert s m := by
  unfold skInsert
  by_cases hc : s.contains m
  · rw [if_pos hc]
    exact List.mem_of_elem_eq_true hc
  · rw [if_neg hc]
    exact List.mem_append.mpr (Or.inr (List.mem_singleton.mpr rfl))

theorem skInsert_mem_mono {s : List Str} {m k : Str} (h : m ∈ s) : m ∈ skInsert s k := by
  unfold skInsert
  by_cases hc : s.contains k
  · rw [if_pos hc]; exact h
  · rw [if_neg hc]; exact List.mem_append.mpr (Or.inl h)

theorem import_step_skipped_mono {entries : List POEntry} {st : ImportResult}
    {it : ImportItem} {m : Str} (h : m ∈ st.skipped) :
    m ∈ (import_step entries st it).skipped := by
  unfold import_step
  split
  · exact h
  · split
    · exact h
    · split
      · exact h
      · split
        · exact skInsert_mem_mono h
        · split
          · exact h
          · exact h

theorem import_fold_skipped_mono {entries : List POEntry} {m : Str} :
    ∀ (items : List ImportItem) (st : ImportResult), m ∈ st.skipped →
      m ∈ (items.foldl (import_step entries) st).skipped := by
  intro items
  induction items with
  | nil => intro st h; exact h
  | cons it its ih =>
    intro st h
    exact ih _ (import_step_skipped_mono h)

/-- Claim C1: a verified entry is excluded by `filter_entries` in every
mode; `import_translations` never places its id into the translations
mapping and records it in the skipped set whenever an item carries its
id; and `apply_translations` leaves the entry untouched even when its
id is a key of the mapping.  (The hypotheses match the spec's data
model: ids are unique within a file and non-empty outside the header.) -/
theorem verified_entries_protected (entries : List POEntry) (e : POEntry) (mode : Mode)
    (doc : ImportDoc) (tr : List (Str × Str))
    (hV : is_verified e = true) (hM : e.msgid ≠ [])
    (hE : e ∈ entries)
    (hU : ∀ e2 ∈ entries, e2.msgid = e.msgid → e2 = e) :
    e ∉ filter_entries entries mode
    ∧ (∀ p ∈ (import_translations doc entries).translations, p.1 ≠ e.msgid)
    ∧ ((∃ it ∈ items_of doc, it.msgid = some e.msgid) →
        e.msgid ∈ (import_translations doc entries).skipped)
    ∧ (∀ i : Nat, entries[i]? = some e → ((apply_translations entries tr).1)[i]? = some e) := by
  refine ⟨?_, ?_, ?_, ?_⟩
  · intro hmem
    have hpred := (List.mem_filter.mp hmem).2
    rcases (Bool.and_eq_true _ _).mp hpred with ⟨hl, _⟩
    rcases (Bool.and_eq_true _ _).mp hl with ⟨_, hnv⟩
    rw [hV] at hnv
    simp at hnv
  · have aux : ∀ (items : List ImportItem) (st : ImportResult),
        (∀ p ∈ st.translations, p.1 ≠ e.msgid) →
        ∀ p ∈ (items.foldl (import_step entries) st).translations, p.1 ≠ e.msgid := by
      intro items
      induction items with
      | nil => intro st h; exact h
      | cons it its ih =>
        intro st h
        refine ih _ ?_
        unfold import_step
        split
        · exact h
        · rename_i m2 hmi
          split
          · exact h
          · split
            · exact h
            · rename_i e2 hlk
              split
              · exact h
              · rename_i hv
                split
                · rename_i v hms
                  intro p hp
                  rcases dictInsert_mem hp with hpd | hpk
                  · exact h p hpd
                  · rw [hpk]
                    intro hm2
                    obtain ⟨hmem2, hmid2, -⟩ := msgidLookup_some hlk
                    have he2 : e2 = e := hU e2 hmem2 (by rw [hmid2, hm2])
                    rw [he2, hV] at hv
                    exact hv rfl
                · exact h
    exact aux _ _ (by intro p hp; exact absurd hp (List.not_mem_nil p))
  · rintro ⟨it, hits, hid⟩
    unfold import_translations
    have aux : ∀ (items : List ImportItem) (st : ImportResult), it ∈ items →
        e.msgid ∈ (items.foldl (import_step entries) st).skipped := by
      intro items
      induction items with
      | nil => intro st h; exact absurd h (List.not_mem_nil it)
      | cons x xs ih =>
        intro st hmem
        rcases List.mem_cons.mp hmem with rfl | hxs
        · rw [List.foldl_cons]
          apply import_fold_skipped_mono
          have hstep : import_step entries st it
              = { st with skipped := skInsert st.skipped e.msgid } := by
            unfold import_step
            rw [hid]
            simp only [if_neg (show ¬(e.msgid.isEmpty = true) by simpa using hM)]
            rw [msgidLookup_self hE hM hU]
            simp only [if_pos hV]
          rw [hstep]
          exact skInsert_mem_self _ _
        · exact ih _ hxs
    exact aux _ _ hits
  · intro i hi
    unfold apply_translations
    rw [List.getElem?_map, hi]
    have happ : apply_one tr e = e := by
      unfold apply_one
      split
      · rw [if_pos hV]
      · rfl
    simp [happ]

/-- A concrete verified entry used by the witness below. -/
def entV : POEntry := { msgid := "a".data, msgstr := "x".data }

/-- Witness for `verified_entries_protected` at a concrete input. -/
theorem verified_entries_protected_witness :
    entV ∉ filter_entries [entV] Mode.all
    ∧ (∀ p ∈ (import_translations
        { translations := some [{ msgid := some "a".data, msgstr := some "y".data }] }
        [entV]).translations, p.1 ≠ entV.msgid) :=
  have h := verified_entries_protected [entV] entV Mode.all
    { translations := some [{ msgid := some "a".data, msgstr := some "y".data }] }
    [("a".data, "z".data)] (by decide) (by decide) (by decide) (by decide)
  ⟨h.1, h.2.1⟩

/-- Claim C10: an import item whose id matches an existing non-verified
entry but whose translation field is absent is dropped silently — the
step leaves translations, errors and skipped all unchanged — and both
accepted input formats feed the same item loop. -/
theorem import_null_msgstr_dropped (entries : List POEntry) (st : ImportResult)
    (item : ImportItem) (m : Str) (e2 : POEntry)
    (hid : item.msgid = some m)
    (hlk : msgidLookup entries m = some e2)
    (hv : is_verified e2 = false)
    (hms : item.msgstr = none) :
    import_step entries st item = st
    ∧ (∀ its : List ImportItem,
        import_translations { translations := some its } entries
          = import_translations { entries := some its } entries) := by
  constructor
  · have hm : m ≠ [] := (msgidLookup_some hlk).2.2
    have h1 : ¬(m.isEmpty = true) := by simpa using hm
    have h2 : ¬(is_verified e2 = true) := by simp [hv]
    simp only [import_step, hid, hlk, hms, if_neg h1, if_neg h2]
  · intro its
    rfl

/-- A concrete non-verified entry used by the witness below. -/
def entNV : POEntry := { msgid := "a".data }

/-- Witness for `import_null_msgstr_dropped` at a concrete input. -/
theorem import_null_msgstr_dropped_witness :
    import_step [entNV] {} { msgid := some "a".data } = {} :=
  (import_null_msgstr_dropped [entNV] {} { msgid := some "a".data } "a".data entNV
    rfl (by decide) (by decide) rfl).1

/-- The reachability invariant of the parser: an open plural field
always points inside the current entry's `msgstr_plural` list. -/
def PInv (st : PState) : Prop :=
  ∀ i, st.field = some (.fMsgstrIdx i) →
    ∃ e, st.curr = some e ∧ i < e.msgstr_plural.length

theorem padTo_length (n : Nat) (l : List Str) : (padTo n l).length = max l.length n := by
  simp [padTo]
  omega

theorem parseLine_ok (st : PState) (line : Str) (h : PInv st) :
    ∃ st2, parseLine st line = .ok st2 ∧ PInv st2 := by
  dsimp only [parseLine]
  split
  · exact ⟨_, rfl, by intro i hf; simp at hf⟩
  · split
    · -- comment line
      refine ⟨_, rfl, ?_⟩
      intro i hf
      simp only at hf
      obtain ⟨e, hc, hlen⟩ := h i hf
      simp only [hc]
      refine ⟨_, rfl, ?_⟩
      split <;> (try split) <;> simpa using hlen
    · split
      · -- msgid line
        exact ⟨_, rfl, by intro i hf; simp at hf⟩
      · split
        · -- msgid_plural line
          exact ⟨_, rfl, by intro i hf; simp at hf⟩
        · split
          · -- msgstr line
            exact ⟨_, rfl, by intro i hf; simp at hf⟩
          · split
            · -- msgstr[idx] line
              rename_i pr idx raw heq
              refine ⟨_, rfl, ?_⟩
              intro i hf
              simp only [Option.some.injEq, PField.fMsgstrIdx.injEq] at hf
              subst hf
              refine ⟨_, rfl, ?_⟩
              simp only [List.length_set, padTo_length]
              omega
            · split
              · -- quoted continuation line
                split
                · -- field = msgid
                  rename_i hfld
                  refine ⟨_, rfl, ?_⟩
                  intro i hf
                  simp only at hf
                  rw [hfld] at hf
                  simp at hf
                · -- field = msgid_plural
                  rename_i hfld
                  refine ⟨_, rfl, ?_⟩
                  intro i hf
                  simp only at hf
                  rw [hfld] at hf
                  simp at hf
                · -- field = msgstr
                  rename_i hfld
                  refine ⟨_, rfl, ?_⟩
                  intro i hf
                  simp only at hf
                  rw [hfld] at hf
                  simp at hf
                · -- field = msgstr[idx]
                  rename_i idx hfld
                  obtain ⟨e, hc, hlen⟩ := h idx hfld
                  simp only [hc]
                  rw [if_pos (by simpa using hlen)]
                  refine ⟨_, rfl, ?_⟩
                  intro i hf
                  simp only at hf
                  rw [hfld] at hf
                  simp only [Option.some.injEq, PField.fMsgstrIdx.injEq] at hf
                  subst hf
                  exact ⟨_, rfl, by simpa [List.length_set] using hlen⟩
                · -- field = none
                  rename_i hfld
                  refine ⟨_, rfl, ?_⟩
                  intro i hf
                  simp only at hf
                  rw [hfld] at hf
                  simp at hf
              · -- unrecognized line
                refine ⟨_, rfl, ?_⟩
                intro i hf
                simp only at hf
                obtain ⟨e, hc, hlen⟩ := h i hf
                simp only [hc]
                exact ⟨_, rfl, hlen⟩

theorem parse_fold_ok :
    ∀ (lines : List Str) (st : PState), PInv st →
      ∃ st2, List.foldlM parseLine st lines = .ok st2 ∧ PInv st2 := by
  intro lines
  induction lines with
  | nil => intro st h; exact ⟨st, rfl, h⟩
  | cons l ls ih =>
    intro st h
    obtain ⟨st1, he, h1⟩ := parseLine_ok st l h
    obtain ⟨st2, he2, h2⟩ := ih st1 h1
    refine ⟨st2, ?_, h2⟩
    rw [List.foldlM_cons, he]
    exact he2

/-- Claim C5: decode is total.  For every line list — malformed lines
included — `parse_po_file` returns an entry list and never hits its one
modelled failure point (the `msgstr_plural[idx]` indexing of a plural
continuation line); unrecognized line shapes fall through to a branch
that returns the state unchanged apart from opening an entry. -/
theorem parse_po_file_total (lines : List Str) :
    ∃ es, parse_po_file lines = .ok es := by
  obtain ⟨st2, he, -⟩ := parse_fold_ok lines {} (by intro i hf; simp at hf)
  refine ⟨flushInto st2, ?_⟩
  unfold parse_po_file
  rw [he]
  rfl

theorem enumF_append (n : Nat) (a b : List α) :
    enumF n (a ++ b) = enumF n a ++ enumF (n + a.length) b := by
  induction a generalizing n with
  | nil => simp [enumF]
  | cons x xs ih =>
    simp [enumF, ih (n + 1)]
    ring_nf

theorem enumF_add (k : Nat) (l : List α) :
    enumF k l = (enumF 0 l).map (fun p => (p.1 + k, p.2)) := by
  induction l generalizing k with
  | nil => rfl
  | cons x xs ih =>
    simp only [enumF, List.map_cons, Nat.zero_add]
    congr 1
    rw [ih (k + 1), ih 1, List.map_map]
    apply List.map_congr_left
    intro p _
    simp
    omega

theorem take_min_self (l : List α) (n : Nat) : l.take (min n l.length) = l.take n := by
  rcases le_or_lt n l.length with h | h
  · rw [min_eq_left h]
  · rw [min_eq_right (le_of_lt h), List.take_length]
    symm
    exact List.take_of_length_le (le_of_lt h)

theorem slice_take (l : List α) (start s : Nat) :
    (l.drop start).take (min (start + s) l.length - start) = (l.drop start).take s := by
  rcases le_or_lt (start + s) l.length with h | h
  · rw [min_eq_left h]
    congr 1
    omega
  · rw [min_eq_right (le_of_lt h)]
    have hlen : (l.drop start).length = l.length - start := List.length_drop _ _
    rw [← hlen, List.take_length]
    symm
    apply List.take_of_length_le
    omega

theorem batches_cover {α β : Type} (s : Nat) (f : Nat → α → β) :
    ∀ (t : Nat) (l : List α) (off : Nat), l.length ≤ t * s →
      (List.flatten ((List.range t).map (fun k =>
          (enumF 0 ((l.drop (k * s)).take s)).map (fun p => f (off + k * s + p.1) p.2))))
        = (enumF 0 l).map (fun p => f (off + p.1) p.2) := by
  intro t
  induction t with
  | zero =>
    intro l off hlen
    have : l = [] := List.eq_nil_of_length_eq_zero (by omega)
    subst this
    simp [enumF]
  | succ t ih =>
    intro l off hlen
    rw [List.range_succ_eq_map]
    simp only [List.map_cons, List.map_map, List.flatten_cons, Nat.zero_mul, List.drop_zero,
      Nat.add_zero, Function.comp_def]
    have hrest : (List.flatten ((List.range t).map (fun k =>
        (enumF 0 (((l.drop s).drop (k * s)).take s)).map
          (fun p => f ((off + s) + k * s + p.1) p.2))))
        = (enumF 0 (l.drop s)).map (fun p => f ((off + s) + p.1) p.2) := by
      apply ih
      simp only [List.length_drop]
      calc l.length - s ≤ (t + 1) * s - s := by omega
        _ = t * s := by ring_nf; omega
    have hmap : ∀ k : Nat,
        ((enumF 0 ((l.drop (Nat.succ k * s)).take s)).map (fun p => f (off + Nat.succ k * s + p.1) p.2))
        = ((enumF 0 (((l.drop s).drop (k * s)).take s)).map (fun p => f ((off + s) + k * s + p.1) p.2)) := by
      intro k
      have hd : (l.drop s).drop (k * s) = l.drop (Nat.succ k * s) := by
        rw [List.drop_drop]
        congr 1
        simp [Nat.succ_eq_add_one]
        ring
      rw [hd]
      apply List.map_congr_left
      intro p _
      congr 1
      simp [Nat.succ_eq_add_one]
      ring
    have hLHSrest : (List.flatten ((List.range t).map (fun k =>
        (enumF 0 ((l.drop (Nat.succ k * s)).take s)).map (fun p => f (off + Nat.succ k * s + p.1) p.2))))
        = (enumF 0 (l.drop s)).map (fun p => f ((off + s) + p.1) p.2) := by
      rw [← hrest]
      congr 1
      apply List.map_congr_left
      intro k _
      exact hmap k
    rw [hLHSrest]
    conv_rhs => rw [← List.take_append_drop s l]
    rw [enumF_append, List.map_append]
    congr 1
    simp only [Nat.zero_add]
    rw [enumF_add ((l.take s).length) (l.drop s), List.map_map]
    rw [List.length_take]
    by_cases hsl : s ≤ l.length
    · rw [min_eq_left hsl]
      apply List.map_congr_left
      intro p _
      simp only [Function.comp_apply]
      congr 1
      omega
    · have hde : l.drop s = [] := by
        apply List.drop_eq_nil_of_le
        omega
      rw [hde]
      rfl

theorem extract_batch_total (entries : List POEntry) (mode : Mode) (bs : Nat)
    (sm : List (Str × List Str)) (b : Int) :
    (extract_batch entries b bs sm mode).2
      = (if (filter_entries entries mode).isEmpty then 0
         else ((filter_entries entries mode).length + bs - 1) / bs) := by
  unfold extract_batch
  dsimp only
  rw [apply_ite Prod.snd]
  simp

theorem extract_batch_in_range (entries : List POEntry) (mode : Mode) (bs : Nat)
    (sm : List (Str × List Str)) (k : Nat)
    (hk : k < (extract_batch entries 1 bs sm mode).2) :
    (extract_batch entries ((k : Int) + 1) bs sm mode).1
      = (enumF 0 (((filter_entries entries mode).drop (k * bs)).take bs)).map
          (fun p => mkRecord sm (k * bs + p.1 + 1) p.2) := by
  have htot := extract_batch_total entries mode bs sm 1
  rw [htot] at hk
  unfold extract_batch
  dsimp only
  rw [if_neg ?hc]
  case hc =>
    simp only [Bool.or_eq_true, decide_eq_true_eq]
    intro hor
    rcases hor with h1 | h2
    · omega
    · omega
  have hstart : ((k : Int) + 1 - 1).toNat = k := by omega
  rw [hstart, slice_take]

theorem ceil_bounds (n bs : Nat) (hs : 1 ≤ bs) :
    n ≤ ((n + bs - 1) / bs) * bs ∧ ((n + bs - 1) / bs) * bs < n + bs := by
  have h1 : ((n + bs - 1) / bs) * bs ≤ n + bs - 1 := Nat.div_mul_le_self _ _
  have hm := Nat.div_add_mod (n + bs - 1) bs
  have hmod : (n + bs - 1) % bs < bs := Nat.mod_lt _ (by omega)
  have hcomm : bs * ((n + bs - 1) / bs) = ((n + bs - 1) / bs) * bs := Nat.mul_comm _ _
  omega

/-- Claim C6: for batch size ≥ 1, the reported batch count is the
ceiling of filtered-count over batch-size (0 when nothing matches,
since the ceiling of 0 is 0); out-of-range batch numbers yield an empty
record list; and the concatenation of batches 1..total is exactly the
record list of the whole filtered set, in order, each record carrying
the 1-indexed position in the full filtered set as its display id. -/
theorem extract_batch_partition (entries : List POEntry) (mode : Mode) (batch_size : Nat)
    (similar_map : List (Str × List Str)) (hs : 1 ≤ batch_size) :
    (extract_batch entries 1 batch_size similar_map mode).2
        = ((filter_entries entries mode).length + batch_size - 1) / batch_size
    ∧ (filter_entries entries mode).length
        ≤ (extract_batch entries 1 batch_size similar_map mode).2 * batch_size
    ∧ (extract_batch entries 1 batch_size similar_map mode).2 * batch_size
        < (filter_entries entries mode).length + batch_size
    ∧ (∀ b : Int, (b < 1 ∨ ((extract_batch entries 1 batch_size similar_map mode).2 : Int) < b) →
        (extract_batch entries b batch_size similar_map mode).1 = [])
    ∧ List.flatten ((List.range ((extract_batch entries 1 batch_size similar_map mode).2)).map
          (fun k : Nat => (extract_batch entries ((k : Int) + 1) batch_size similar_map mode).1))
        = (enumF 0 (filter_entries entries mode)).map
            (fun p => mkRecord similar_map (p.1 + 1) p.2) := by
  have htot := extract_batch_total entries mode batch_size similar_map 1
  have hform : (if (filter_entries entries mode).isEmpty then 0
      else ((filter_entries entries mode).length + batch_size - 1) / batch_size)
      = ((filter_entries entries mode).length + batch_size - 1) / batch_size := by
    split
    · rename_i he
      have h0 : (filter_entries entries mode).length = 0 := by
        simpa [List.isEmpty_iff_length_eq_zero] using he
      rw [h0]
      symm
      apply Nat.div_eq_of_lt
      omega
    · rfl
  have htotf : (extract_batch entries 1 batch_size similar_map mode).2
      = ((filter_entries entries mode).length + batch_size - 1) / batch_size := by
    rw [htot, hform]
  obtain ⟨hlo, hhi⟩ := ceil_bounds (filter_entries entries mode).length batch_size hs
  refine ⟨htotf, by rw [htotf]; exact hlo, by rw [htotf]; exact hhi, ?_, ?_⟩
  · intro b hb
    unfold extract_batch
    dsimp only
    rw [if_pos ?hcond]
    case hcond =>
      simp only [Bool.or_eq_true, decide_eq_true_eq]
      rw [htotf] at hb
      rcases hb with h1 | h2
      · exact Or.inl h1
      · right
        rw [hform]
        exact h2
  · have hlen2 : (filter_entries entries mode).length
        ≤ (extract_batch entries 1 batch_size similar_map mode).2 * batch_size := by
      rw [htotf]; exact hlo
    have hjoin := batches_cover batch_size (fun gid e => mkRecord similar_map (gid + 1) e)
      ((extract_batch entries 1 batch_size similar_map mode).2)
      (filter_entries entries mode) 0 hlen2
    refine Eq.trans ?_ (Eq.trans hjoin ?_)
    · congr 1
      apply List.map_congr_left
      intro k hk
      rw [extract_batch_in_range entries mode batch_size similar_map k (List.mem_range.mp hk)]
      apply List.map_congr_left
      intro p _
      congr 2
      omega
    · apply List.map_congr_left
      intro p _
      congr 2
      omega

/-- Three untranslated entries used by the batching witness. -/
def esW : List POEntry :=
  [{ msgid := "a".data }, { msgid := "b".data }, { msgid := "c".data }]

/-- Witness for `extract_batch_partition` at a concrete input. -/
theorem extract_batch_partition_witness :
    (extract_batch esW 1 2 [] Mode.all).2
      = ((filter_entries esW Mode.all).length + 2 - 1) / 2 :=
  (extract_batch_partition esW Mode.all 2 [] (by decide)).1

theorem brandLoop_fst_shape (msgid msgstr : Str) (bl : List Str) :
    ∀ x ∈ (brandLoop msgid msgstr bl).1, ∃ b mt, x = Issue.brandNameTranslated b mt := by
  induction bl with
  | nil => intro x hx; simp [brandLoop] at hx
  | cons brand rest ih =>
    intro x hx
    dsimp only [brandLoop] at hx
    split at hx
    · split at hx
      · rename_i alt halt
        rcases List.mem_cons.mp hx with rfl | hx2
        · exact ⟨brand, alt, rfl⟩
        · exact ih x hx2
      · exact ih x hx
    · exact ih x hx

theorem mem_range9_iff (i : Nat) :
    i ∈ (List.range 9).map (fun j => j + 1) ↔ 1 ≤ i ∧ i ≤ 9 := by
  simp only [List.mem_map, List.mem_range]
  constructor
  · rintro ⟨j, hj, rfl⟩
    omega
  · intro h
    exact ⟨i - 1, by omega, by omega⟩

theorem validate_entry_errors_eq (e : POEntry) (h1 : e.msgid ≠ []) (h2 : e.msgstr ≠ []) :
    (validate_entry e).1
      = ((List.range 9).map (fun j => j + 1)).filterMap (fun i =>
          if pyCount (phTok i) e.msgid ≠ pyCount (phTok i) e.msgstr then
            some (Issue.placeholderMismatch (phTok i)
              (pyCount (phTok i) e.msgid) (pyCount (phTok i) e.msgstr))
          else none)
        ++ ((if hasNumTok e.msgid then
              (if !(findWrong e.msgstr).isEmpty then
                [Issue.wrongPlaceholderFormat (findWrong e.msgstr)] else [])
             else [])
          ++ (brandIssues e.msgid e.msgstr).1) := by
  have g1 : ¬(e.msgid.isEmpty = true) := by simpa using h1
  have g2 : ¬(e.msgstr.isEmpty = true) := by simpa using h2
  simp only [validate_entry, if_neg g1, if_neg g2]
  rw [List.append_assoc]

/-- Claim C7 (counterexample): an entry with source `%1` and EMPTY
translation short-circuits validation with only a warning — zero
`PLACEHOLDER_MISMATCH` errors are reported although the `%1` counts
differ (1 in the source, 0 in the translation), refuting the claim as
stated for entries with empty translations. -/
theorem placeholder_mismatch_empty_cex :
    ("%1".data : Str) ≠ []
    ∧ (validate_entry { msgid := "%1".data }).1 = []
    ∧ pyCount "%1".data ("%1".data : Str) = 1
    ∧ pyCount "%1".data (({ msgid := "%1".data } : POEntry).msgstr) = 0 := by
  decide

/-- Claim C7 (amended): for entries with non-empty source AND non-empty
translation, validation reports zero `PLACEHOLDER_MISMATCH` errors iff
the `%1`..`%9` counts agree between source and translation, and each
disagreeing token produces an error naming the token and both counts. -/
theorem placeholder_counts_iff (e : POEntry) (h1 : e.msgid ≠ []) (h2 : e.msgstr ≠ []) :
    ((∀ t a b, Issue.placeholderMismatch t a b ∉ (validate_entry e).1) ↔
      (∀ i, 1 ≤ i → i ≤ 9 → pyCount (phTok i) e.msgid = pyCount (phTok i) e.msgstr))
    ∧ (∀ i, 1 ≤ i → i ≤ 9 →
        pyCount (phTok i) e.msgid ≠ pyCount (phTok i) e.msgstr →
        Issue.placeholderMismatch (phTok i) (pyCount (phTok i) e.msgid)
          (pyCount (phTok i) e.msgstr) ∈ (validate_entry e).1) := by
  rw [validate_entry_errors_eq e h1 h2]
  have hnotwrong : ∀ (t : Str) (a b : Nat),
      Issue.placeholderMismatch t a b ∉
        ((if hasNumTok e.msgid = true then
            (if !(findWrong e.msgstr).isEmpty then
              [Issue.wrongPlaceholderFormat (findWrong e.msgstr)] else [])
          else [])
        ++ (brandIssues e.msgid e.msgstr).1) := by
    intro t a b hmem
    rcases List.mem_append.mp hmem with hw | hb
    · split at hw
      · split at hw
        · simp at hw
        · simp at hw
      · simp at hw
    · obtain ⟨b2, mt, hshape⟩ := brandLoop_fst_shape e.msgid e.msgstr BRAND_NAMES _ hb
      simp at hshape
  constructor
  · constructor
    · intro hnone i hi1 hi9
      by_contra hne
      have hin : Issue.placeholderMismatch (phTok i) (pyCount (phTok i) e.msgid)
          (pyCount (phTok i) e.msgstr) ∈
          ((List.range 9).map (fun j => j + 1)).filterMap (fun i =>
            if pyCount (phTok i) e.msgid ≠ pyCount (phTok i) e.msgstr then
              some (Issue.placeholderMismatch (phTok i)
                (pyCount (phTok i) e.msgid) (pyCount (phTok i) e.msgstr))
            else none) := by
        apply List.mem_filterMap.mpr
        exact ⟨i, (mem_range9_iff i).mpr ⟨hi1, hi9⟩, by rw [if_pos hne]⟩
      exact hnone _ _ _ (List.mem_append.mpr (Or.inl hin))
    · intro hall t a b hmem
      rcases List.mem_append.mp hmem with hph | hrest
      · obtain ⟨i, hirange, hsome⟩ := List.mem_filterMap.mp hph
        obtain ⟨hi1, hi9⟩ := (mem_range9_iff i).mp hirange
        by_cases hne : pyCount (phTok i) e.msgid ≠ pyCount (phTok i) e.msgstr
        · exact hne (hall i hi1 hi9)
        · rw [if_neg hne] at hsome
          simp at hsome
      · exact hnotwrong t a b hrest
  · intro i hi1 hi9 hne
    apply List.mem_append.mpr
    left
    apply List.mem_filterMap.mpr
    exact ⟨i, (mem_range9_iff i).mpr ⟨hi1, hi9⟩, by rw [if_pos hne]⟩

/-- A concrete entry exercising the amended placeholder claim. -/
def entPh : POEntry := { msgid := "a %1 b".data, msgstr := "c %2 d".data }

/-- Witness for `placeholder_counts_iff` at a concrete input. -/
theorem placeholder_counts_iff_witness :
    Issue.placeholderMismatch (phTok 1) (pyCount (phTok 1) entPh.msgid)
      (pyCount (phTok 1) entPh.msgstr) ∈ (validate_entry entPh).1 :=
  (placeholder_counts_iff entPh (by decide) (by decide)).2 1 (by decide) (by decide) (by decide)

/-- The entry of the C8 scenario: source `"Cache size: %1 MB"`,
translation `"Taille du cache : %d Mo"`. -/
def cacheEntry : POEntry :=
  { msgid := "Cache size: %1 MB".data, msgstr := "Taille du cache : %d Mo".data }

/-- Claim C8: whenever the source contains a `%1`-style token, the
translation is non-empty, and the translation contains printf-style
tokens, validation reports a `WRONG_PLACEHOLDER_FORMAT` error listing
them; and on the cache scenario both the `WRONG_PLACEHOLDER_FORMAT`
error and the `%1` `PLACEHOLDER_MISMATCH` error (counts 1 vs 0) are
reported. -/
theorem wrong_placeholder_format_reported :
    (∀ e : POEntry, e.msgstr ≠ [] → hasNumTok e.msgid = true → findWrong e.msgstr ≠ [] →
      Issue.wrongPlaceholderFormat (findWrong e.msgstr) ∈ (validate_entry e).1)
    ∧ Issue.wrongPlaceholderFormat ["%d".data] ∈ (validate_entry cacheEntry).1
    ∧ Issue.placeholderMismatch "%1".data 1 0 ∈ (validate_entry cacheEntry).1 := by
  refine ⟨?_, by decide, by decide⟩
  intro e h2 h3 h4
  have h1 : e.msgid ≠ [] := by
    intro hh
    rw [hh] at h3
    simp [hasNumTok] at h3
  rw [validate_entry_errors_eq e h1 h2]
  apply List.mem_append.mpr
  right
  apply List.mem_append.mpr
  left
  rw [if_pos h3, if_pos (by simpa using h4)]
  exact List.mem_singleton.mpr rfl

/-- Witness for `wrong_placeholder_format_reported` at a concrete input. -/
theorem wrong_placeholder_format_reported_witness :
    Issue.wrongPlaceholderFormat (findWrong cacheEntry.msgstr) ∈ (validate_entry cacheEntry).1 :=
  wrong_placeholder_format_reported.1 cacheEntry (by decide) (by decide) (by decide)

theorem processComments_no_flag (sr sa : Bool) (cs : List Str)
    (h : ∀ c ∈ cs, strStartsWith "#,".data c = false) :
    processComments sr sa cs = (cs, false) := by
  induction cs with
  | nil => rfl
  | cons c rest ih =>
    dsimp only [processComments]
    rw [ih (fun c2 hc2 => h c2 (List.mem_cons_of_mem _ hc2))]
    rw [if_neg (by simp [h c (List.mem_cons_self _ _)])]

theorem processComments_append_no_flag (sr sa : Bool) (p rest : List Str)
    (hp : ∀ c ∈ p, strStartsWith "#,".data c = false) :
    processComments sr sa (p ++ rest)
      = (p ++ (processComments sr sa rest).1, (processComments sr sa rest).2) := by
  induction p with
  | nil => simp
  | cons c p2 ih =>
    dsimp only [processComments, List.cons_append]
    rw [ih (fun c2 hc2 => hp c2 (List.mem_cons_of_mem _ hc2))]
    rw [if_neg (by simp [hp c (List.mem_cons_self _ _)])]

/-- The comment lines of one entry used by the C9 counterexample: a
reference comment followed by a translator note, no flags line. -/
def entC9 : POEntry :=
  { comments := ["#: a.lua:1".data, "# note".data], msgid := "a".data }

/-- Claim C9 (counterexample): when `write_po_file` synthesizes a
`#, fuzzy` line, it places it after ALL comment lines, not immediately
after the last reference comment; the after-the-reference placement is
implemented only by the never-called `add_fuzzy` method. -/
theorem fuzzy_line_placement_cex :
    writeEntryLines [] ["a".data] entC9
      = ["#: a.lua:1".data, "# note".data, "#, fuzzy".data,
         "msgid \"a\"".data, "msgstr \"\"".data]
    ∧ (add_fuzzy entC9).comments
      = ["#: a.lua:1".data, "#, fuzzy".data, "# note".data]
    ∧ (writeEntryLines [] ["a".data] entC9).take 3 ≠ (add_fuzzy entC9).comments := by
  decide

/-- Claim C9 (amended): during encode, when fuzzy must be added to an
entry with no flags comment line, the synthesized `#, fuzzy` line is
placed after all of the entry's comment lines, immediately before the
msgid line; when exactly one flags line exists, that line is rewritten
in place (its neighbours and their order unchanged) and no line is
synthesized. -/
theorem fuzzy_line_placement (rm af : List Str) (e : POEntry) :
    ((∀ c ∈ e.comments, strStartsWith "#,".data c = false) →
      af.contains e.msgid = true → is_verified e = false →
      writeEntryLines rm af e = e.comments ++ ("#, fuzzy".data :: entryBodyLines e))
    ∧ (∀ p fl q, e.comments = p ++ fl :: q →
        strStartsWith "#,".data fl = true →
        (∀ c ∈ p, strStartsWith "#,".data c = false) →
        (∀ c ∈ q, strStartsWith "#,".data c = false) →
        writeEntryLines rm af e
          = p ++ rewriteFlagLine (rm.contains e.msgid)
              (af.contains e.msgid && !is_verified e) fl
            ++ (q ++ entryBodyLines e)) := by
  constructor
  · intro hNo hAdd hNv
    unfold writeEntryLines
    dsimp only
    rw [processComments_no_flag _ _ _ hNo, hAdd, hNv]
    simp
  · intro p fl q hcs hfl hp hq
    unfold writeEntryLines
    dsimp only
    rw [hcs, processComments_append_no_flag _ _ _ _ hp]
    dsimp only [processComments]
    rw [processComments_no_flag _ _ _ hq, if_pos hfl]
    simp

/-- Witness for `fuzzy_line_placement` at a concrete input. -/
theorem fuzzy_line_placement_witness :
    writeEntryLines [] ["a".data] entC9
      = entC9.comments ++ ("#, fuzzy".data :: entryBodyLines entC9) :=
  (fuzzy_line_placement [] ["a".data] entC9).1 (by decide) (by decide) (by decide)
